import Mathlib

/-!
Shallow embedding of the core of the austin profiler (C sources):
  * `copy_memory` from the remote-memory reader header (mem.h),
  * `_py_proc__parse_maps_file`, `_get_base_64`/`_get_base_32`,
    `_py_proc__analyze_elf64`/`_py_proc__analyze_elf32`/`_py_proc__analyze_elf`
    from src/linux/py_proc.h.
Machine integers are modelled as `Nat` with explicit reduction mod 2^64 where
the C code relies on unsigned wraparound.  Syscall behaviour (process_vm_readv,
stat, the bytes of mapped files) enters as explicit oracle inputs, so every
definition is executable.
-/

namespace Austin

/-- 2^64, the modulus of the 64-bit address arithmetic in the C sources. -/
def pow64 : Nat := 2 ^ 64

/-- `UINT64_MAX`, the sentinel returned by `_get_base_64` when no `PT_LOAD`
program header exists. -/
def UINT64MAX : Nat := 2 ^ 64 - 1

/-- `UINT32_MAX`, the sentinel returned by `_get_base_32`. -/
def UINT32MAX : Nat := 2 ^ 32 - 1

/-- 64-bit unsigned addition (`a + b` on `Elf64_Addr`/pointers). -/
def add64 (a b : Nat) : Nat := (a + b) % pow64

/-- 64-bit unsigned subtraction (`a - b` on `Elf64_Addr`/pointers), with the
usual two's-complement wraparound. -/
def sub64 (a b : Nat) : Nat := (a + (pow64 - b % pow64)) % pow64

/-- `needle` begins `hay` (character-list version of `strncmp == 0`). -/
def startsWithL : List Char → List Char → Bool
  | [], _ => true
  | _ :: _, [] => false
  | a :: as, b :: bs => a == b && startsWithL as bs

/-- `needle` occurs contiguously somewhere in `hay`. -/
def containsL (needle : List Char) : List Char → Bool
  | [] => needle.isEmpty
  | c :: cs => startsWithL needle (c :: cs) || containsL needle cs

/-- `needle` ends `hay`. -/
def endsWithL (needle hay : List Char) : Bool :=
  startsWithL needle.reverse hay.reverse

/-- `strstr(hay, needle) != NULL`: `needle` occurs as a contiguous substring of
`hay`. -/
def strstrB (hay needle : String) : Bool := containsL needle.toList hay.toList

/-! ## Remote Memory Reader (`mem.h`, Linux branch of `copy_memory`) -/

/-- The error kinds `set_error` can record in `copy_memory` on Linux:
`EPROCNPID` (no such process), `EPROCPERM` (permission denied), `EMEMCOPY`
(generic memory-copy fault). -/
inductive ErrKind where
  | eprocnpid
  | eprocperm
  | ememcopy
deriving DecidableEq, Repr

/-- Outcome of one `process_vm_readv` syscall: either a byte count (its
non-negative return value) or `-1` together with `errno`. -/
inductive ReadOutcome where
  | ok (bytes : Nat)
  | err (errno : Nat)
deriving DecidableEq, Repr

/-- `errno` value `ESRCH` on Linux. -/
def ESRCH : Nat := 3

/-- `errno` value `EPERM` on Linux. -/
def EPERM : Nat := 1

/-- Observable result of a `copy_memory` call: how many read syscalls were
issued, what (if anything) was stored in the process-wide error slot, and the
C return value expressed as `failed : Bool` (the C function returns
`result != len`, nonzero meaning failure). -/
structure CopyResult where
  syscalls : Nat
  errorSlot : Option ErrKind
  failed : Bool
deriving DecidableEq, Repr

/-- `copy_memory(pid, addr, len, buf)`, Linux branch.  It builds one local and
one remote iovec and issues a single `process_vm_readv` syscall — the oracle
`outcome` is that syscall's result.  On `-1` it classifies `errno`
(`ESRCH ↦ EPROCNPID`, `EPERM ↦ EPROCPERM`, otherwise `EMEMCOPY`); it returns
`result != len`.  The address is passed to the syscall unconditioned: no
bounds check appears anywhere in the function. -/
def copy_memory (addr : Nat) (len : Nat) (outcome : ReadOutcome) : CopyResult :=
  let _ := addr  -- forwarded to the syscall as remote[0].iov_base, never tested
  let errorSlot : Option ErrKind :=
    match outcome with
    | .ok _ => none
    | .err e =>
        some (if e = ESRCH then .eprocnpid else if e = EPERM then .eprocperm else .ememcopy)
  let result : Int :=
    match outcome with
    | .ok n => (n : Int)
    | .err _ => -1
  { syscalls := 1, errorSlot := errorSlot, failed := result ≠ (len : Int) }

end Austin

namespace Austin

/-! ## Process Map Introspector (`_py_proc__parse_maps_file`) -/

/-- One successfully `sscanf`-parsed line of `/proc/<pid>/maps`: the two map
bounds and, when an eighth field matched (`field_count == 1` in the C),
the backing pathname.  Lines that match fewer than 7 fields are skipped
outright by the C loop and are not modelled. -/
structure MapsLine where
  lower : Nat
  upper : Nat
  pathname : Option String
deriving DecidableEq, Repr

/-- Filesystem oracle for the two probes `_py_proc__parse_maps_file` makes on
a candidate pathname: `_file_size` (a `stat` call) and `_elf_is_executable`
(maps the file's ELF header and tests `e_type == ET_EXEC`). -/
structure FSOracle where
  fileSize : String → Nat
  isExec : String → Bool

/-- `strstr(line, "python") != NULL`.  The scan runs over the whole maps line;
the seven leading fields are hex digits, permission flags and separators, so
the needle `"python"` can only occur inside the pathname field (absent
pathname, it cannot occur at all). -/
def linePython (l : MapsLine) : Bool :=
  match l.pathname with
  | some p => strstrB p "python"
  | none => false

/-- `strstr(line, "[heap]\n") != NULL`.  The line ends in `pathname ++ "\n"`
and `'\n'` occurs nowhere else, so the test holds exactly when the pathname
ends in `"[heap]"`. -/
def lineHeap (l : MapsLine) : Bool :=
  match l.pathname with
  | some p => endsWithL "[heap]".toList p.toList
  | none => false

/-- The guard of the min/max update: `field_count == 0` (no pathname matched)
`|| strstr(pathname, "[v") == NULL` — pseudo-regions such as `[vsyscall]`,
`[vdso]`, `[vvar]` are excluded from the address bounds, pathless regions are
included. -/
def realRegion (l : MapsLine) : Bool :=
  match l.pathname with
  | some p => !strstrB p "[v"
  | none => true

/-- The fields of `py_proc_t` (and its nested `map` struct) touched by the
code under analysis.  Addresses are `Nat`; `bin_path`/`lib_path` are `none`
for `NULL`.  The last two fields are the runtime anchors.  Modelled from the
spec: the `RuntimeAnchors` record — the remote addresses of the runtime's
global state and of the thread-state head, stored by the symbol resolver
(`_py_proc__check_sym`, declared in `py_proc.c`, not part of the sources
under analysis). -/
structure PyProc where
  min_raddr : Nat
  max_raddr : Nat
  bin_path : Option String
  lib_path : Option String
  heap_base : Nat
  heap_size : Nat
  elf_base : Nat
  elf_size : Nat
  bss_base : Nat
  bss_size : Nat
  runtime_raddr : Option Nat
  tstate_head_raddr : Option Nat
deriving DecidableEq, Repr

/-- The min/max address-bounds update of `_py_proc__parse_maps_file` for one
parsed line: `min_raddr`/`max_raddr` move to a strictly lower base / strictly
higher end, with pseudo-regions (pathname containing `"[v"`) excluded. -/
def boundsUpdate (self : PyProc) (l : MapsLine) : PyProc :=
  if realRegion l then
    { self with
      min_raddr := if l.lower < self.min_raddr then l.lower else self.min_raddr,
      max_raddr := if l.upper > self.max_raddr then l.upper else self.max_raddr }
  else self

/-- Loop body of `_py_proc__parse_maps_file` for one parsed line: first the
min/max bounds update (pseudo-regions excluded), then the `[heap]` branch
(first hit only, then `continue`), then the `"python"` filter, then the
executable/library candidate selection with the 1 MiB (`1 << 20`) size
threshold.  The `Bool` component is `maps_flag & HEAP_MAP`. -/
def parseMapsStep (fs : FSOracle) (st : PyProc × Bool) (l : MapsLine) : PyProc × Bool :=
  let heapSeen := st.2
  let self := boundsUpdate st.1 l
  if !heapSeen && lineHeap l then
    ({ self with heap_base := l.lower, heap_size := l.upper - l.lower }, true)
  else if !linePython l then
    (self, heapSeen)
  else
    match l.pathname with
    | none => (self, heapSeen)  -- unreachable: linePython requires a pathname
    | some p =>
      let file_size := fs.fileSize p
      if fs.isExec p then
        if self.bin_path ≠ none ∨ file_size < 2 ^ 20 then (self, heapSeen)
        else
          ({ self with
              bin_path := some p,
              elf_base := l.lower,
              elf_size := l.upper - l.lower }, heapSeen)
      else
        if self.bin_path ≠ none ∨ self.lib_path ≠ none ∨ file_size < 2 ^ 20 then
          (self, heapSeen)
        else
          ({ self with
              lib_path := some p,
              elf_base := l.lower,
              elf_size := l.upper - l.lower }, heapSeen)

/-- `_py_proc__parse_maps_file` after a successful `fopen`: resets
`min_raddr` to `(void *) -1`, `max_raddr` to `NULL`, frees both paths, folds
the loop body over the parsed lines, and returns success (`Bool` = the C
function returned 0) iff a path was populated and the heap map was seen:
the C returns `(bin_path == NULL && lib_path == NULL) || maps_flag != HEAP_MAP`
as its failure value. -/
def parseMapsFile (fs : FSOracle) (self0 : PyProc) (lines : List MapsLine) :
    PyProc × Bool :=
  let init : PyProc :=
    { self0 with min_raddr := UINT64MAX, max_raddr := 0, bin_path := none, lib_path := none }
  let r := lines.foldl (parseMapsStep fs) (init, false)
  (r.1, decide (¬(r.1.bin_path = none ∧ r.1.lib_path = none) ∧ r.2 = true))

/-- The evolution of `min_raddr` alone across one maps line: updated to a
strictly smaller lower bound of a real region. -/
def minStep (m : Nat) (l : MapsLine) : Nat :=
  if realRegion l then (if l.lower < m then l.lower else m) else m

/-- The evolution of `max_raddr` alone across one maps line. -/
def maxStep (m : Nat) (l : MapsLine) : Nat :=
  if realRegion l then (if l.upper > m then l.upper else m) else m

/-- The object file handed to the ELF analyzers
(`_py_proc__analyze_elf64`/`32`, line
`object_file = self->lib_path != NULL ? self->lib_path : self->bin_path`):
the library path takes precedence whenever it is set. -/
def objectFile (self : PyProc) : Option String :=
  match self.lib_path with
  | some p => some p
  | none => self.bin_path

/-! ## Binary Format Parser (`_py_proc__analyze_elf*`, `_get_base_*`) -/

/-- `PT_LOAD` segment type. -/
def PT_LOAD : Nat := 1

/-- `SHT_DYNSYM` section type. -/
def SHT_DYNSYM : Nat := 11

/-- The required number of anchor symbols, `#define SYMBOLS 2`. -/
def SYMBOLS : Nat := 2

/-- The fields of a program header the code inspects. -/
structure Phdr where
  p_type : Nat
  p_vaddr : Nat
  p_align : Nat
deriving DecidableEq, Repr

/-- One dynamic-symbol record: its name (already resolved through the string
table the code reaches via `p_dynsym->sh_link`) and its `st_value`. -/
structure Sym where
  st_name : String
  st_value : Nat
deriving DecidableEq, Repr

/-- The fields of a section header the code inspects.  `sh_name` is the name
resolved through the section-header string table (`sh_name_base +
p_shdr->sh_name` in the C); `entries` are the symbol records stored in the
file at `sh_offset ..< sh_offset + sh_size` in steps of `sh_entsize`, which
the symbol loop visits in file order. -/
structure Shdr where
  sh_type : Nat
  sh_name : String
  sh_offset : Nat
  sh_size : Nat
  sh_addr : Nat
  entries : List Sym
deriving DecidableEq, Repr

/-- An object file as the analyzers see it: the program-header table and the
section-header table, in file order. -/
structure ElfFile where
  phdrs : List Phdr
  shdrs : List Shdr
deriving DecidableEq, Repr

/-- `_get_base_64`: the virtual address of the first `PT_LOAD` program header
aligned down to its alignment (`p_vaddr - p_vaddr % p_align`), or
`UINT64_MAX` when no loadable segment exists. -/
def get_base_64 : List Phdr → Nat
  | [] => UINT64MAX
  | ph :: rest =>
      if ph.p_type = PT_LOAD then ph.p_vaddr - ph.p_vaddr % ph.p_align
      else get_base_64 rest

/-- `_get_base_32`: identical scan with the `UINT32_MAX` sentinel. -/
def get_base_32 : List Phdr → Nat
  | [] => UINT32MAX
  | ph :: rest =>
      if ph.p_type = PT_LOAD then ph.p_vaddr - ph.p_vaddr % ph.p_align
      else get_base_32 rest

/-- Modelled from the spec: `_py_proc__check_sym` (defined in `py_proc.c`,
outside the sources under analysis).  The Symbol Resolver keeps a fixed list
of two anchor names — the runtime's global state and the thread-state head —
checks the presented name for membership, stores the remote address on a
match, and returns the count of anchors this call resolved (1 on a match,
0 otherwise). -/
def check_sym (self : PyProc) (name : String) (value : Nat) : PyProc × Nat :=
  if name = "_PyRuntime" then ({ self with runtime_raddr := some value }, 1)
  else if name = "_PyThreadState_Current" then
    ({ self with tstate_head_raddr := some value }, 1)
  else (self, 0)

/-- The count `_py_proc__check_sym` returns depends only on the symbol name. -/
def symCount (name : String) : Nat :=
  if name = "_PyRuntime" ∨ name = "_PyThreadState_Current" then 1 else 0

/-- The dynamic-symbol loop shared by both analyzers: for each entry in table
order compute the remote address (`vf sym.st_value`, standing for
`self->map.elf.base + (sym->st_value - base)` in the matching word size),
feed it to `_py_proc__check_sym`, accumulate the running count `symbols`,
and `break` as soon as `symbols >= SYMBOLS`.  Returns the final state, the
final count, and how many entries were examined. -/
def scanSyms (vf : Nat → Nat) : PyProc → Nat → List Sym → PyProc × Nat × Nat
  | self, symbols, [] => (self, symbols, 0)
  | self, symbols, s :: rest =>
      let c := check_sym self s.st_name (vf s.st_value)
      let symbols' := symbols + c.2
      if SYMBOLS ≤ symbols' then (c.1, symbols', 1)
      else
        let r := scanSyms vf c.1 symbols' rest
        (r.1, r.2.1, r.2.2 + 1)

/-- Result of `_py_proc__analyze_elf64`/`32`: the updated process state, the
final value of the local `symbols` counter, and the C return value
`!symbols` expressed as `failed : Bool`. -/
structure AnalyzeResult where
  self : PyProc
  symbols : Nat
  failed : Bool
deriving DecidableEq, Repr

/-- Section loop body of `_py_proc__analyze_elf64`: a section of type
`SHT_DYNSYM` named `".dynsym"` becomes the (last-one-wins) dynamic symbol
table; otherwise a section named `".bss"` sets `self->map.bss` from its
`sh_addr` (rebased by the load bias) and `sh_size`. -/
def sectionStep64 (base : Nat) (st : PyProc × Option Shdr) (sh : Shdr) :
    PyProc × Option Shdr :=
  if sh.sh_type = SHT_DYNSYM ∧ sh.sh_name = ".dynsym" then (st.1, some sh)
  else if sh.sh_name = ".bss" then
    ({ st.1 with
        bss_base := add64 st.1.elf_base (sub64 sh.sh_addr base),
        bss_size := sh.sh_size }, st.2)
  else st

/-- `_py_proc__analyze_elf64`.  When `_get_base_64` yields the `UINT64_MAX`
sentinel the whole body is skipped and `!symbols` with `symbols == 0` is
returned.  Otherwise the section loop runs (`.bss` handling and `.dynsym`
selection), and if a dynamic symbol table with nonzero `sh_offset` was found
its entries are scanned with the `SYMBOLS` short-circuit.  `self->map.elf.base`
is never written during the analysis, so it is captured once for the symbol
address computation `self->map.elf.base + (sym->st_value - base)` (64-bit
unsigned arithmetic). -/
def analyze_elf64 (self : PyProc) (f : ElfFile) : AnalyzeResult :=
  let base := get_base_64 f.phdrs
  if base = UINT64MAX then { self := self, symbols := 0, failed := true }
  else
    let sd := f.shdrs.foldl (sectionStep64 base) (self, none)
    match sd.2 with
    | none => { self := sd.1, symbols := 0, failed := true }
    | some d =>
        if d.sh_offset ≠ 0 then
          let r := scanSyms (fun v => add64 sd.1.elf_base (sub64 v base)) sd.1 0 d.entries
          { self := r.1, symbols := r.2.1, failed := r.2.1 = 0 }
        else { self := sd.1, symbols := 0, failed := true }

/-- Section loop body of `_py_proc__analyze_elf32`: it only selects the
dynamic symbol table — the 32-bit analyzer has no `".bss"` branch, so the
process state is never written here. -/
def sectionStep32 (st : PyProc × Option Shdr) (sh : Shdr) : PyProc × Option Shdr :=
  if sh.sh_type = SHT_DYNSYM ∧ sh.sh_name = ".dynsym" then (st.1, some sh)
  else st

/-- 32-bit unsigned subtraction, for `sym->st_value - base` on `Elf32_Addr`. -/
def sub32 (a b : Nat) : Nat := (a + (2 ^ 32 - b % 2 ^ 32)) % 2 ^ 32

/-- `_py_proc__analyze_elf32`: like the 64-bit analyzer but with the
`UINT32_MAX` sentinel, no `.bss` handling, and 32-bit arithmetic in
`sym->st_value - base`. -/
def analyze_elf32 (self : PyProc) (f : ElfFile) : AnalyzeResult :=
  let base := get_base_32 f.phdrs
  if base = UINT32MAX then { self := self, symbols := 0, failed := true }
  else
    let sd := f.shdrs.foldl sectionStep32 (self, none)
    match sd.2 with
    | none => { self := sd.1, symbols := 0, failed := true }
    | some d =>
        if d.sh_offset ≠ 0 then
          let r := scanSyms (fun v => add64 sd.1.elf_base (sub32 v base)) sd.1 0 d.entries
          { self := r.1, symbols := r.2.1, failed := r.2.1 = 0 }
        else { self := sd.1, symbols := 0, failed := true }

/-! ## ELF header validation and dispatch (`_py_proc__analyze_elf`) -/

/-- The identification bytes and (64-bit view) section-header fields of the
`Elf64_Ehdr` that `_py_proc__analyze_elf` reads from the remote process. -/
structure Ehdr where
  e_ident : List Nat
  e_shoff : Nat
  e_shnum : Nat
deriving DecidableEq, Repr

/-- The four ELF magic bytes `"\x7fELF"` (`ELFMAG`, compared over
`SELFMAG = 4` bytes). -/
def ELFMAG : List Nat := [0x7f, 0x45, 0x4c, 0x46]

/-- `memcmp(ehdr.e_ident, ELFMAG, SELFMAG) == 0`. -/
def magicOk (e : Ehdr) : Bool := e.e_ident.take 4 == ELFMAG

/-- `ehdr.e_ident[EI_CLASS]` (`EI_CLASS = 4`). -/
def eiClass (e : Ehdr) : Nat := e.e_ident.getD 4 0

/-- `ELFCLASS32`. -/
def ELFCLASS32 : Nat := 1

/-- `ELFCLASS64`. -/
def ELFCLASS64 : Nat := 2

/-- Outcome of `_py_proc__analyze_elf`: the remote header read failed
(`"Cannot read ELF header"`); the format check failed
(`"Invalid ELF format"`); the call was dispatched to the 32- or 64-bit
analyzer (carrying that analyzer's result); or the identification class was
neither `ELFCLASS32` nor `ELFCLASS64` (the `default: FAIL` arm). -/
inductive ElfOutcome where
  | readError
  | badFormat
  | analyzed32 (r : AnalyzeResult)
  | analyzed64 (r : AnalyzeResult)
  | badClass
deriving DecidableEq, Repr

/-- `_py_proc__analyze_elf`: read the ELF header out of the remote process
(`hdr` is the outcome of that `py_proc__memcpy`); fail on a short read; fail
with "Invalid ELF format" when `e_shoff == 0`, `e_shnum < 2`, or the magic
bytes mismatch; otherwise dispatch on `e_ident[EI_CLASS]`. -/
def analyze_elf (self : PyProc) (hdr : Option Ehdr) (f : ElfFile) : ElfOutcome :=
  match hdr with
  | none => .readError
  | some e =>
      if e.e_shoff = 0 ∨ e.e_shnum < 2 ∨ ¬magicOk e then .badFormat
      else if eiClass e = ELFCLASS32 then .analyzed32 (analyze_elf32 self f)
      else if eiClass e = ELFCLASS64 then .analyzed64 (analyze_elf64 self f)
      else .badClass

/-! ## Concrete test vectors -/

/-- A freshly `calloc`-ed `py_proc_t`: all fields zero / `NULL`. -/
def self0 : PyProc :=
  { min_raddr := 0, max_raddr := 0, bin_path := none, lib_path := none,
    heap_base := 0, heap_size := 0, elf_base := 0, elf_size := 0,
    bss_base := 0, bss_size := 0, runtime_raddr := none, tstate_head_raddr := none }

/-- Pathname of an executable interpreter binary used in the test vectors. -/
def binP : String := "/usr/bin/python3"

/-- Pathname of an interpreter shared library used in the test vectors. -/
def libP : String := "/usr/lib/libpython3.8.so"

/-- Filesystem oracle: every file is exactly `1 << 20` bytes (1 MiB) on disk,
and only `binP` is an `ET_EXEC` object. -/
def fsBoth : FSOracle :=
  { fileSize := fun _ => 2 ^ 20, isExec := fun p => p == binP }

/-- A maps listing in which a qualifying shared library precedes the
qualifying executable, followed by the heap region. -/
def linesBoth : List MapsLine :=
  [ { lower := 0x1000, upper := 0x2000, pathname := some libP },
    { lower := 0x3000, upper := 0x4000, pathname := some binP },
    { lower := 0x5000, upper := 0x6000, pathname := some "[heap]" } ]

/-- An object file whose dynamic symbol table carries both anchor symbols. -/
def fTwoAnchors : ElfFile :=
  { phdrs := [{ p_type := PT_LOAD, p_vaddr := 0, p_align := 0x1000 }],
    shdrs := [{ sh_type := SHT_DYNSYM, sh_name := ".dynsym", sh_offset := 0x100,
                sh_size := 48, sh_addr := 0,
                entries := [{ st_name := "_PyRuntime", st_value := 0x10 },
                            { st_name := "_PyThreadState_Current", st_value := 0x20 }] }] }

/-- A well-formed 64-bit ELF header: magic bytes, `EI_CLASS = ELFCLASS64`,
nonzero section-header offset, 10 sections. -/
def ehdr64Good : Ehdr :=
  { e_ident := [0x7f, 0x45, 0x4c, 0x46, 2, 1, 1], e_shoff := 64, e_shnum := 10 }

/-- An object file with a loadable segment at `0x1000`, a dynamic symbol
table resolving one anchor, and a `.bss` section at virtual address
`0x5000`. -/
def fBss : ElfFile :=
  { phdrs := [{ p_type := PT_LOAD, p_vaddr := 0x1000, p_align := 0x1000 }],
    shdrs := [{ sh_type := SHT_DYNSYM, sh_name := ".dynsym", sh_offset := 0x300,
                sh_size := 24, sh_addr := 0,
                entries := [{ st_name := "_PyRuntime", st_value := 0x2000 }] },
              { sh_type := 8, sh_name := ".bss", sh_offset := 0x2000,
                sh_size := 0x800, sh_addr := 0x5000, entries := [] }] }

/-!
# Theorems

Each claim of the specification is settled below against the embedding.
-/

/-- Claim C1 (amended): `copy_memory` performs no bounds check of its own —
it hands every request, whatever the target address, to the platform read
primitive, issuing exactly one read syscall.  (Range enforcement against
`[min_raddr, max_raddr)` is not part of this function.) -/
theorem copy_memory_always_syscall (addr len : Nat) (outcome : ReadOutcome) :
    (copy_memory addr len outcome).syscalls = 1 := rfl

/-- Counterexample to claim C1 as stated: after parsing a maps listing whose
session bounds are `[0x1000, 0x6000)`, a read at the out-of-bounds address
`0x7000` still reaches the read primitive (`copy_memory` issues its one
syscall rather than rejecting the request). -/
theorem copy_memory_oob_cex :
    (parseMapsFile fsBoth self0 linesBoth).1.min_raddr = 0x1000 ∧
    (parseMapsFile fsBoth self0 linesBoth).1.max_raddr = 0x6000 ∧
    ¬(0x1000 ≤ 0x7000 ∧ 0x7000 < 0x6000) ∧
    (copy_memory 0x7000 8 (ReadOutcome.ok 8)).syscalls = 1 := by decide

/-- Claim C2 (amended): `copy_memory` succeeds iff the syscall transferred
exactly `len` bytes; a syscall error (`-1`) is classified by `errno` into
exactly one of `EPROCNPID` (`ESRCH`), `EPROCPERM` (`EPERM`), `EMEMCOPY`
(otherwise); a partial read is reported as failure but records no error
kind; and the reader issues exactly one read syscall — it never retries. -/
theorem copy_memory_result_classification (addr len : Nat) (outcome : ReadOutcome) :
    ((copy_memory addr len outcome).failed = false ↔ outcome = ReadOutcome.ok len) ∧
    (∀ e, outcome = ReadOutcome.err e →
        (copy_memory addr len outcome).errorSlot =
          some (if e = ESRCH then ErrKind.eprocnpid
                else if e = EPERM then ErrKind.eprocperm else ErrKind.ememcopy)) ∧
    (∀ n, outcome = ReadOutcome.ok n → (copy_memory addr len outcome).errorSlot = none) ∧
    (copy_memory addr len outcome).syscalls = 1 := by
  cases outcome with
  | ok n =>
      refine ⟨?_, ?_, ?_, rfl⟩
      · simp [copy_memory]
      · intro e h
        exact absurd h (by simp)
      · intro m _
        rfl
  | err e =>
      refine ⟨?_, ?_, ?_, rfl⟩
      · simp [copy_memory]
      · intro e' h
        cases h
        rfl
      · intro m h
        exact absurd h (by simp)

/-- Witness for C2: a syscall error `ESRCH` is classified as `EPROCNPID`,
and a full-length transfer is a success. -/
theorem copy_memory_result_classification_wit :
    (copy_memory 0 8 (ReadOutcome.err 3)).errorSlot = some ErrKind.eprocnpid ∧
    (copy_memory 0 8 (ReadOutcome.ok 8)).failed = false := by
  constructor
  · have h := (copy_memory_result_classification 0 8 (ReadOutcome.err 3)).2.1 3 rfl
    simpa [ESRCH] using h
  · exact (copy_memory_result_classification 0 8 (ReadOutcome.ok 8)).1.mpr rfl

/-- Counterexample to claim C2 as stated: a partial transfer (4 of 8 bytes)
is reported as failure, but no error kind at all is recorded — the failure is
not classified into any of the three kinds. -/
theorem copy_memory_partial_read_cex :
    (copy_memory 0x100 8 (ReadOutcome.ok 4)).failed = true ∧
    (copy_memory 0x100 8 (ReadOutcome.ok 4)).errorSlot = none := by decide

/-- Claim C7 (confirmed): given a successfully read header,
`_py_proc__analyze_elf` fails with "Invalid ELF format" exactly when the
section-header offset is zero, there are fewer than two sections, or the
magic bytes mismatch; otherwise it dispatches on the identification class to
the 32-bit or 64-bit analyzer and fails for any other class.  A failed
header read is its own, distinct failure. -/
theorem analyze_elf_format_dispatch (self : PyProc) (e : Ehdr) (f : ElfFile) :
    (analyze_elf self (some e) f = ElfOutcome.badFormat ↔
      (e.e_shoff = 0 ∨ e.e_shnum < 2 ∨ magicOk e = false)) ∧
    (¬(e.e_shoff = 0 ∨ e.e_shnum < 2 ∨ magicOk e = false) →
      ((eiClass e = ELFCLASS32 →
          analyze_elf self (some e) f = ElfOutcome.analyzed32 (analyze_elf32 self f)) ∧
       (eiClass e = ELFCLASS64 →
          analyze_elf self (some e) f = ElfOutcome.analyzed64 (analyze_elf64 self f)) ∧
       (eiClass e ≠ ELFCLASS32 → eiClass e ≠ ELFCLASS64 →
          analyze_elf self (some e) f = ElfOutcome.badClass))) ∧
    analyze_elf self none f = ElfOutcome.readError := by
  have hiff : (e.e_shoff = 0 ∨ e.e_shnum < 2 ∨ ¬magicOk e) ↔
      (e.e_shoff = 0 ∨ e.e_shnum < 2 ∨ magicOk e = false) := by
    simp [Bool.not_eq_true]
  have hun : analyze_elf self (some e) f =
      (if e.e_shoff = 0 ∨ e.e_shnum < 2 ∨ ¬magicOk e then ElfOutcome.badFormat
       else if eiClass e = ELFCLASS32 then ElfOutcome.analyzed32 (analyze_elf32 self f)
       else if eiClass e = ELFCLASS64 then ElfOutcome.analyzed64 (analyze_elf64 self f)
       else ElfOutcome.badClass) := rfl
  refine ⟨?_, ?_, rfl⟩
  · rw [hun]
    by_cases h : e.e_shoff = 0 ∨ e.e_shnum < 2 ∨ ¬magicOk e
    · rw [if_pos h]
      exact ⟨fun _ => hiff.mp h, fun _ => rfl⟩
    · rw [if_neg h]
      constructor
      · intro hc
        split_ifs at hc
      · intro hrhs
        exact absurd (hiff.mpr hrhs) h
  · intro hn
    have h : ¬(e.e_shoff = 0 ∨ e.e_shnum < 2 ∨ ¬magicOk e) := fun hh => hn (hiff.mp hh)
    refine ⟨?_, ?_, ?_⟩
    · intro h32
      rw [hun, if_neg h, if_pos h32]
    · intro h64
      rcases eq_or_ne (eiClass e) ELFCLASS32 with h32 | h32
      · have hcc : ELFCLASS32 = ELFCLASS64 := h32.symm.trans h64
        exact absurd hcc (by decide)
      · rw [hun, if_neg h, if_neg h32, if_pos h64]
    · intro h32 h64
      rw [hun, if_neg h, if_neg h32, if_neg h64]

/-- Witness for C7: a well-formed 64-bit header dispatches to the 64-bit
analyzer. -/
theorem analyze_elf_format_dispatch_wit :
    analyze_elf self0 (some ehdr64Good) fTwoAnchors =
      ElfOutcome.analyzed64 (analyze_elf64 self0 fTwoAnchors) := by
  have h := (analyze_elf_format_dispatch self0 ehdr64Good fTwoAnchors).2.1
    (by decide)
  exact (h.2.1 (by decide))

/-! ### Lemmas about `_py_proc__check_sym` and the dynamic-symbol scan -/

theorem check_sym_count (s : PyProc) (n : String) (v : Nat) :
    (check_sym s n v).2 = symCount n := by
  simp only [check_sym, symCount]
  split_ifs <;> simp_all

theorem check_sym_of_count_zero (s : PyProc) (n : String) (v : Nat)
    (h : (check_sym s n v).2 = 0) : (check_sym s n v).1 = s := by
  simp only [check_sym] at *
  split_ifs at * <;> simp_all

theorem check_sym_anchor_of_count_ne (s : PyProc) (n : String) (v : Nat)
    (h : (check_sym s n v).2 ≠ 0) :
    (check_sym s n v).1.runtime_raddr ≠ none ∨
    (check_sym s n v).1.tstate_head_raddr ≠ none := by
  simp only [check_sym] at *
  split_ifs at * <;> simp_all

theorem check_sym_runtime_ne (s : PyProc) (n : String) (v : Nat)
    (h : s.runtime_raddr ≠ none) : (check_sym s n v).1.runtime_raddr ≠ none := by
  simp only [check_sym]
  split_ifs <;> simp_all

theorem check_sym_tstate_ne (s : PyProc) (n : String) (v : Nat)
    (h : s.tstate_head_raddr ≠ none) : (check_sym s n v).1.tstate_head_raddr ≠ none := by
  simp only [check_sym]
  split_ifs <;> simp_all

theorem check_sym_bss (s : PyProc) (n : String) (v : Nat) :
    (check_sym s n v).1.bss_base = s.bss_base ∧
    (check_sym s n v).1.bss_size = s.bss_size := by
  simp only [check_sym]
  split_ifs <;> simp_all

theorem scanSyms_symbols_ge (vf : Nat → Nat) :
    ∀ (l : List Sym) (s : PyProc) (acc : Nat), acc ≤ (scanSyms vf s acc l).2.1 := by
  intro l
  induction l with
  | nil => intro s acc; simp [scanSyms]
  | cons a l ih =>
      intro s acc
      simp only [scanSyms]
      by_cases h : SYMBOLS ≤ acc + (check_sym s a.st_name (vf a.st_value)).2
      · rw [if_pos h]
        show acc ≤ acc + (check_sym s a.st_name (vf a.st_value)).2
        omega
      · rw [if_neg h]
        have := ih (check_sym s a.st_name (vf a.st_value)).1
          (acc + (check_sym s a.st_name (vf a.st_value)).2)
        show acc ≤ (scanSyms vf (check_sym s a.st_name (vf a.st_value)).1
          (acc + (check_sym s a.st_name (vf a.st_value)).2) l).2.1
        omega

theorem scanSyms_state_of_eq (vf : Nat → Nat) :
    ∀ (l : List Sym) (s : PyProc) (acc : Nat),
      (scanSyms vf s acc l).2.1 = acc → (scanSyms vf s acc l).1 = s := by
  intro l
  induction l with
  | nil => intro s acc _; simp [scanSyms]
  | cons a l ih =>
      intro s acc h
      simp only [scanSyms] at h ⊢
      by_cases hb : SYMBOLS ≤ acc + (check_sym s a.st_name (vf a.st_value)).2
      · rw [if_pos hb] at h ⊢
        have h' : acc + (check_sym s a.st_name (vf a.st_value)).2 = acc := h
        have hz : (check_sym s a.st_name (vf a.st_value)).2 = 0 := by omega
        exact check_sym_of_count_zero s a.st_name (vf a.st_value) hz
      · rw [if_neg hb] at h ⊢
        have hge := scanSyms_symbols_ge vf l (check_sym s a.st_name (vf a.st_value)).1
          (acc + (check_sym s a.st_name (vf a.st_value)).2)
        have h' : (scanSyms vf (check_sym s a.st_name (vf a.st_value)).1
            (acc + (check_sym s a.st_name (vf a.st_value)).2) l).2.1 = acc := h
        have hz : (check_sym s a.st_name (vf a.st_value)).2 = 0 := by omega
        have hs1 : (check_sym s a.st_name (vf a.st_value)).1 = s :=
          check_sym_of_count_zero s a.st_name (vf a.st_value) hz
        have h'' : (scanSyms vf s acc l).2.1 = acc := by
          rw [hs1, hz, Nat.add_zero] at h'
          exact h'
        show (scanSyms vf (check_sym s a.st_name (vf a.st_value)).1
            (acc + (check_sym s a.st_name (vf a.st_value)).2) l).1 = s
        rw [hs1, hz, Nat.add_zero]
        exact ih s acc h''

theorem scanSyms_runtime_ne (vf : Nat → Nat) :
    ∀ (l : List Sym) (s : PyProc) (acc : Nat), s.runtime_raddr ≠ none →
      (scanSyms vf s acc l).1.runtime_raddr ≠ none := by
  intro l
  induction l with
  | nil => intro s acc h; simpa [scanSyms] using h
  | cons a l ih =>
      intro s acc h
      simp only [scanSyms]
      by_cases hb : SYMBOLS ≤ acc + (check_sym s a.st_name (vf a.st_value)).2
      · rw [if_pos hb]
        exact check_sym_runtime_ne s a.st_name (vf a.st_value) h
      · rw [if_neg hb]
        exact ih _ _ (check_sym_runtime_ne s a.st_name (vf a.st_value) h)

theorem scanSyms_tstate_ne (vf : Nat → Nat) :
    ∀ (l : List Sym) (s : PyProc) (acc : Nat), s.tstate_head_raddr ≠ none →
      (scanSyms vf s acc l).1.tstate_head_raddr ≠ none := by
  intro l
  induction l with
  | nil => intro s acc h; simpa [scanSyms] using h
  | cons a l ih =>
      intro s acc h
      simp only [scanSyms]
      by_cases hb : SYMBOLS ≤ acc + (check_sym s a.st_name (vf a.st_value)).2
      · rw [if_pos hb]
        exact check_sym_tstate_ne s a.st_name (vf a.st_value) h
      · rw [if_neg hb]
        exact ih _ _ (check_sym_tstate_ne s a.st_name (vf a.st_value) h)

theorem scanSyms_anchor_of_lt (vf : Nat → Nat) :
    ∀ (l : List Sym) (s : PyProc) (acc : Nat),
      acc < (scanSyms vf s acc l).2.1 →
      ((scanSyms vf s acc l).1.runtime_raddr ≠ none ∨
       (scanSyms vf s acc l).1.tstate_head_raddr ≠ none) := by
  intro l
  induction l with
  | nil => intro s acc h; simp [scanSyms] at h
  | cons a l ih =>
      intro s acc h
      simp only [scanSyms] at h ⊢
      by_cases hb : SYMBOLS ≤ acc + (check_sym s a.st_name (vf a.st_value)).2
      · rw [if_pos hb] at h ⊢
        have h' : acc < acc + (check_sym s a.st_name (vf a.st_value)).2 := h
        have hz : (check_sym s a.st_name (vf a.st_value)).2 ≠ 0 := by omega
        exact check_sym_anchor_of_count_ne s a.st_name (vf a.st_value) hz
      · rw [if_neg hb] at h ⊢
        have h' : acc < (scanSyms vf (check_sym s a.st_name (vf a.st_value)).1
            (acc + (check_sym s a.st_name (vf a.st_value)).2) l).2.1 := h
        show (scanSyms vf (check_sym s a.st_name (vf a.st_value)).1
            (acc + (check_sym s a.st_name (vf a.st_value)).2) l).1.runtime_raddr ≠ none ∨
          (scanSyms vf (check_sym s a.st_name (vf a.st_value)).1
            (acc + (check_sym s a.st_name (vf a.st_value)).2) l).1.tstate_head_raddr ≠ none
        by_cases hz : (check_sym s a.st_name (vf a.st_value)).2 = 0
        · have hs1 : (check_sym s a.st_name (vf a.st_value)).1 = s :=
            check_sym_of_count_zero s a.st_name (vf a.st_value) hz
          rw [hs1, hz, Nat.add_zero] at h' ⊢
          exact ih s acc h'
        · rcases check_sym_anchor_of_count_ne s a.st_name (vf a.st_value) hz with hr | ht
          · exact Or.inl (scanSyms_runtime_ne vf l _ _ hr)
          · exact Or.inr (scanSyms_tstate_ne vf l _ _ ht)

theorem scanSyms_bss (vf : Nat → Nat) :
    ∀ (l : List Sym) (s : PyProc) (acc : Nat),
      (scanSyms vf s acc l).1.bss_base = s.bss_base ∧
      (scanSyms vf s acc l).1.bss_size = s.bss_size := by
  intro l
  induction l with
  | nil => intro s acc; simp [scanSyms]
  | cons a l ih =>
      intro s acc
      simp only [scanSyms]
      by_cases hb : SYMBOLS ≤ acc + (check_sym s a.st_name (vf a.st_value)).2
      · rw [if_pos hb]
        exact check_sym_bss s a.st_name (vf a.st_value)
      · rw [if_neg hb]
        have h1 := ih (check_sym s a.st_name (vf a.st_value)).1
          (acc + (check_sym s a.st_name (vf a.st_value)).2)
        have h2 := check_sym_bss s a.st_name (vf a.st_value)
        exact ⟨h1.1.trans h2.1, h1.2.trans h2.2⟩

/-! ### Lemmas about `_get_base_64` / `_get_base_32` -/

theorem get_base_64_no_load :
    ∀ (phdrs : List Phdr), (∀ q ∈ phdrs, q.p_type ≠ PT_LOAD) →
      get_base_64 phdrs = UINT64MAX := by
  intro phdrs
  induction phdrs with
  | nil => intro _; rfl
  | cons a l ih =>
      intro h
      have ha : a.p_type ≠ PT_LOAD := h a (List.mem_cons_self a l)
      simp only [get_base_64, if_neg ha]
      exact ih fun q hq => h q (List.mem_cons_of_mem a hq)

theorem get_base_32_no_load :
    ∀ (phdrs : List Phdr), (∀ q ∈ phdrs, q.p_type ≠ PT_LOAD) →
      get_base_32 phdrs = UINT32MAX := by
  intro phdrs
  induction phdrs with
  | nil => intro _; rfl
  | cons a l ih =>
      intro h
      have ha : a.p_type ≠ PT_LOAD := h a (List.mem_cons_self a l)
      simp only [get_base_32, if_neg ha]
      exact ih fun q hq => h q (List.mem_cons_of_mem a hq)

/-- Claim C6 (confirmed): the load bias is the virtual address of the first
`PT_LOAD` program header aligned down to its alignment boundary
(`p_vaddr - p_vaddr % p_align`); without a loadable segment the sentinel
maximum address is produced, the analyzer body is skipped entirely (the
process state is returned untouched with `symbols == 0`), and the analysis
fails. -/
theorem load_bias_first_pt_load :
    (∀ (pre post : List Phdr) (ph : Phdr),
        (∀ q ∈ pre, q.p_type ≠ PT_LOAD) → ph.p_type = PT_LOAD →
        get_base_64 (pre ++ ph :: post) = ph.p_vaddr - ph.p_vaddr % ph.p_align ∧
        get_base_32 (pre ++ ph :: post) = ph.p_vaddr - ph.p_vaddr % ph.p_align) ∧
    (∀ (phdrs : List Phdr), (∀ q ∈ phdrs, q.p_type ≠ PT_LOAD) →
        get_base_64 phdrs = UINT64MAX ∧ get_base_32 phdrs = UINT32MAX) ∧
    (∀ (self : PyProc) (f : ElfFile), (∀ q ∈ f.phdrs, q.p_type ≠ PT_LOAD) →
        analyze_elf64 self f = { self := self, symbols := 0, failed := true } ∧
        analyze_elf32 self f = { self := self, symbols := 0, failed := true }) := by
  refine ⟨?_, ?_, ?_⟩
  · intro pre
    induction pre with
    | nil =>
        intro post ph _ hph
        constructor <;> simp [get_base_64, get_base_32, hph]
    | cons a l ih =>
        intro post ph h hph
        have ha : a.p_type ≠ PT_LOAD := h a (List.mem_cons_self a l)
        have hrest := ih post ph (fun q hq => h q (List.mem_cons_of_mem a hq)) hph
        constructor
        · simpa [get_base_64, if_neg ha] using hrest.1
        · simpa [get_base_32, if_neg ha] using hrest.2
  · intro phdrs h
    exact ⟨get_base_64_no_load phdrs h, get_base_32_no_load phdrs h⟩
  · intro self f h
    constructor
    · simp [analyze_elf64, get_base_64_no_load f.phdrs h]
    · simp [analyze_elf32, get_base_32_no_load f.phdrs h]

/-- Witness for C6: on a table whose first loadable segment has
`p_vaddr = 0x1007`, `p_align = 0x1000`, the bias is `0x1000`; the empty
table yields the sentinel and an untouched, failed analysis. -/
theorem load_bias_first_pt_load_wit :
    get_base_64 [{ p_type := 0, p_vaddr := 5, p_align := 4 },
                 { p_type := 1, p_vaddr := 0x1007, p_align := 0x1000 }] = 0x1000 ∧
    get_base_64 [] = UINT64MAX ∧
    analyze_elf64 self0 { phdrs := [], shdrs := [] } =
      { self := self0, symbols := 0, failed := true } := by
  refine ⟨?_, ?_, ?_⟩
  · have h := (load_bias_first_pt_load).1 [{ p_type := 0, p_vaddr := 5, p_align := 4 }] []
      { p_type := 1, p_vaddr := 0x1007, p_align := 0x1000 } (by decide) (by decide)
    simpa using h.1
  · exact ((load_bias_first_pt_load).2.1 [] (by simp)).1
  · exact ((load_bias_first_pt_load).2.2 self0 { phdrs := [], shdrs := [] } (by simp)).1

/-- Claim C8 (confirmed): the dynamic-symbol scan examines entries in table
order and stops with the entry whose resolution brings the count of resolved
anchors to `SYMBOLS` (2): exactly the entries up to and including that one
are examined, none after it, and the reported count is the accumulated one. -/
theorem dynsym_scan_short_circuit (vf : Nat → Nat) (self : PyProc)
    (pre post : List Sym) (s : Sym)
    (h1 : (pre.map fun t => symCount t.st_name).sum < SYMBOLS)
    (h2 : SYMBOLS ≤ (pre.map fun t => symCount t.st_name).sum + symCount s.st_name) :
    (scanSyms vf self 0 (pre ++ s :: post)).2.2 = pre.length + 1 ∧
    (scanSyms vf self 0 (pre ++ s :: post)).2.1 =
      (pre.map fun t => symCount t.st_name).sum + symCount s.st_name := by
  suffices h : ∀ (pre : List Sym) (st : PyProc) (acc : Nat),
      acc + (pre.map fun t => symCount t.st_name).sum < SYMBOLS →
      SYMBOLS ≤ acc + (pre.map fun t => symCount t.st_name).sum + symCount s.st_name →
      (scanSyms vf st acc (pre ++ s :: post)).2.2 = pre.length + 1 ∧
      (scanSyms vf st acc (pre ++ s :: post)).2.1 =
        acc + (pre.map fun t => symCount t.st_name).sum + symCount s.st_name by
    have hh := h pre self 0 (by omega) (by omega)
    refine ⟨hh.1, ?_⟩
    rw [hh.2]
    omega
  intro pre
  induction pre with
  | nil =>
      intro st acc ha hb
      simp only [List.map_nil, List.sum_nil, Nat.add_zero] at ha hb ⊢
      simp only [List.nil_append, scanSyms, check_sym_count]
      rw [if_pos hb]
      exact ⟨rfl, rfl⟩
  | cons a l ih =>
      intro st acc ha hb
      simp only [List.map_cons, List.sum_cons] at ha hb ⊢
      simp only [List.cons_append, scanSyms, check_sym_count]
      have hno : ¬SYMBOLS ≤ acc + symCount a.st_name := by omega
      rw [if_neg hno]
      have hh := ih (check_sym st a.st_name (vf a.st_value)).1 (acc + symCount a.st_name)
        (by omega) (by omega)
      refine ⟨?_, ?_⟩
      · show (scanSyms vf (check_sym st a.st_name (vf a.st_value)).1
            (acc + symCount a.st_name) (l ++ s :: post)).2.2 + 1 = (a :: l).length + 1
        rw [hh.1]
        simp [List.length_cons]
      · show (scanSyms vf (check_sym st a.st_name (vf a.st_value)).1
            (acc + symCount a.st_name) (l ++ s :: post)).2.1 =
          acc + (symCount a.st_name + (List.map (fun t => symCount t.st_name) l).sum) +
            symCount s.st_name
        rw [hh.2]
        omega

/-- Witness for C8: with anchors at positions 1 and 3 of a four-entry table,
exactly three entries are examined and the count stops at 2. -/
theorem dynsym_scan_short_circuit_wit :
    (scanSyms (fun v => v) self0 0
        ([{ st_name := "_PyRuntime", st_value := 1 },
          { st_name := "foo", st_value := 2 }] ++
         { st_name := "_PyThreadState_Current", st_value := 3 } ::
          [{ st_name := "bar", st_value := 4 }])).2.2 = 3 ∧
    (scanSyms (fun v => v) self0 0
        ([{ st_name := "_PyRuntime", st_value := 1 },
          { st_name := "foo", st_value := 2 }] ++
         { st_name := "_PyThreadState_Current", st_value := 3 } ::
          [{ st_name := "bar", st_value := 4 }])).2.1 = 2 := by
  have h := dynsym_scan_short_circuit (fun v => v) self0
    [{ st_name := "_PyRuntime", st_value := 1 }, { st_name := "foo", st_value := 2 }]
    [{ st_name := "bar", st_value := 4 }]
    { st_name := "_PyThreadState_Current", st_value := 3 }
    (by decide) (by decide)
  constructor
  · simpa using h.1
  · simpa [symCount] using h.2

/-! ### Lemmas about the section-header loops -/

theorem sectionStep64_frame (base : Nat) (p : PyProc × Option Shdr) (sh : Shdr) :
    (sectionStep64 base p sh).1.runtime_raddr = p.1.runtime_raddr ∧
    (sectionStep64 base p sh).1.tstate_head_raddr = p.1.tstate_head_raddr ∧
    (sectionStep64 base p sh).1.elf_base = p.1.elf_base := by
  simp only [sectionStep64]
  split_ifs <;> exact ⟨rfl, rfl, rfl⟩

theorem sectionFold64_frame (base : Nat) :
    ∀ (l : List Shdr) (p : PyProc × Option Shdr),
      ((l.foldl (sectionStep64 base) p).1.runtime_raddr = p.1.runtime_raddr) ∧
      ((l.foldl (sectionStep64 base) p).1.tstate_head_raddr = p.1.tstate_head_raddr) ∧
      ((l.foldl (sectionStep64 base) p).1.elf_base = p.1.elf_base) := by
  intro l
  induction l with
  | nil => intro p; exact ⟨rfl, rfl, rfl⟩
  | cons a l ih =>
      intro p
      have h1 := sectionStep64_frame base p a
      have h2 := ih (sectionStep64 base p a)
      simp only [List.foldl_cons]
      exact ⟨h2.1.trans h1.1, h2.2.1.trans h1.2.1, h2.2.2.trans h1.2.2⟩

theorem sectionStep32_fst (p : PyProc × Option Shdr) (sh : Shdr) :
    (sectionStep32 p sh).1 = p.1 := by
  simp only [sectionStep32]
  split_ifs <;> rfl

theorem sectionFold32_fst :
    ∀ (l : List Shdr) (p : PyProc × Option Shdr), (l.foldl sectionStep32 p).1 = p.1 := by
  intro l
  induction l with
  | nil => intro p; rfl
  | cons a l ih =>
      intro p
      simp only [List.foldl_cons]
      exact (ih (sectionStep32 p a)).trans (sectionStep32_fst p a)

theorem scan_success_iff_anchor (vf : Nat → Nat) (s : PyProc) (l : List Sym)
    (h1 : s.runtime_raddr = none) (h2 : s.tstate_head_raddr = none) :
    (scanSyms vf s 0 l).2.1 ≠ 0 ↔
      ((scanSyms vf s 0 l).1.runtime_raddr ≠ none ∨
       (scanSyms vf s 0 l).1.tstate_head_raddr ≠ none) := by
  constructor
  · intro h
    exact scanSyms_anchor_of_lt vf l s 0 (Nat.pos_of_ne_zero h)
  · intro hr hz
    have hsame := scanSyms_state_of_eq vf l s 0 hz
    rw [hsame] at hr
    rcases hr with hr | hr
    · exact hr h1
    · exact hr h2

/-- Claim C5 (amended): the ELF analysis succeeds — so sampling proceeds past
it — exactly when AT LEAST one of the two runtime anchors has been resolved
to a non-null remote address (both may be resolved); when zero anchor
symbols are resolved the analysis reports failure (`return !symbols`). -/
theorem analyze_elf_success_iff_anchor (self : PyProc) (f : ElfFile)
    (h1 : self.runtime_raddr = none) (h2 : self.tstate_head_raddr = none) :
    ((analyze_elf64 self f).failed = false ↔
      ((analyze_elf64 self f).self.runtime_raddr ≠ none ∨
       (analyze_elf64 self f).self.tstate_head_raddr ≠ none)) ∧
    ((analyze_elf32 self f).failed = false ↔
      ((analyze_elf32 self f).self.runtime_raddr ≠ none ∨
       (analyze_elf32 self f).self.tstate_head_raddr ≠ none)) := by
  constructor
  · by_cases hb : get_base_64 f.phdrs = UINT64MAX
    · simp [analyze_elf64, hb, h1, h2]
    · have hfr := sectionFold64_frame (get_base_64 f.phdrs) f.shdrs (self, none)
      have hfr1 : (List.foldl (sectionStep64 (get_base_64 f.phdrs)) (self, none)
          f.shdrs).1.runtime_raddr = none := hfr.1.trans h1
      have hfr2 : (List.foldl (sectionStep64 (get_base_64 f.phdrs)) (self, none)
          f.shdrs).1.tstate_head_raddr = none := hfr.2.1.trans h2
      cases hd : (List.foldl (sectionStep64 (get_base_64 f.phdrs)) (self, none) f.shdrs).2 with
      | none => simp [analyze_elf64, hb, hd, hfr1, hfr2]
      | some d =>
          by_cases ho : d.sh_offset = 0
          · simp [analyze_elf64, hb, hd, ho, hfr1, hfr2]
          · have hiff := scan_success_iff_anchor
              (fun v => add64 (List.foldl (sectionStep64 (get_base_64 f.phdrs)) (self, none)
                f.shdrs).1.elf_base (sub64 v (get_base_64 f.phdrs)))
              (List.foldl (sectionStep64 (get_base_64 f.phdrs)) (self, none) f.shdrs).1
              d.entries hfr1 hfr2
            simp [analyze_elf64, hb, hd, ho]
            simpa using hiff
  · by_cases hb : get_base_32 f.phdrs = UINT32MAX
    · simp [analyze_elf32, hb, h1, h2]
    · have hf1 : (List.foldl sectionStep32 (self, none) f.shdrs).1.runtime_raddr = none :=
        (congrArg PyProc.runtime_raddr (sectionFold32_fst f.shdrs (self, none))).trans h1
      have hf2 : (List.foldl sectionStep32 (self, none) f.shdrs).1.tstate_head_raddr = none :=
        (congrArg PyProc.tstate_head_raddr (sectionFold32_fst f.shdrs (self, none))).trans h2
      cases hd : (List.foldl sectionStep32 (self, none) f.shdrs).2 with
      | none => simp [analyze_elf32, hb, hd, hf1, hf2]
      | some d =>
          by_cases ho : d.sh_offset = 0
          · simp [analyze_elf32, hb, hd, ho, hf1, hf2]
          · have hiff := scan_success_iff_anchor
              (fun v => add64 (List.foldl sectionStep32 (self, none) f.shdrs).1.elf_base
                (sub32 v (get_base_32 f.phdrs)))
              (List.foldl sectionStep32 (self, none) f.shdrs).1 d.entries hf1 hf2
            simp [analyze_elf32, hb, hd, ho]
            simpa using hiff

/-- Witness for C5: the equivalence instantiated on a file that resolves
both anchors. -/
theorem analyze_elf_success_iff_anchor_wit :
    (analyze_elf64 self0 fTwoAnchors).failed = false ↔
      ((analyze_elf64 self0 fTwoAnchors).self.runtime_raddr ≠ none ∨
       (analyze_elf64 self0 fTwoAnchors).self.tstate_head_raddr ≠ none) :=
  (analyze_elf_success_iff_anchor self0 fTwoAnchors rfl rfl).1

/-- Counterexample to claim C5 as stated ("exactly one"): a binary that
resolves BOTH anchors still passes the analysis — success does not require
that exactly one anchor be non-null. -/
theorem analyze_elf_two_anchors_cex :
    (analyze_elf64 self0 fTwoAnchors).failed = false ∧
    (analyze_elf64 self0 fTwoAnchors).self.runtime_raddr ≠ none ∧
    (analyze_elf64 self0 fTwoAnchors).self.tstate_head_raddr ≠ none ∧
    (analyze_elf64 self0 fTwoAnchors).symbols = 2 := by decide

/-! ### Lemmas about the `.bss` handling of the section loop -/

theorem sectionStep64_bss_set (base : Nat) (p : PyProc × Option Shdr) (sh : Shdr)
    (h : sh.sh_name = ".bss") :
    (sectionStep64 base p sh).1.bss_base = add64 p.1.elf_base (sub64 sh.sh_addr base) ∧
    (sectionStep64 base p sh).1.bss_size = sh.sh_size := by
  have hne : ¬(sh.sh_type = SHT_DYNSYM ∧ sh.sh_name = ".dynsym") := by
    rintro ⟨-, hx⟩
    rw [h] at hx
    exact absurd hx (by decide)
  simp [sectionStep64, hne, h]

theorem sectionStep64_bss_keep (base : Nat) (p : PyProc × Option Shdr) (sh : Shdr)
    (h : sh.sh_name ≠ ".bss") :
    (sectionStep64 base p sh).1.bss_base = p.1.bss_base ∧
    (sectionStep64 base p sh).1.bss_size = p.1.bss_size := by
  by_cases h1 : sh.sh_type = SHT_DYNSYM ∧ sh.sh_name = ".dynsym"
  · simp [sectionStep64, h1]
  · simp [sectionStep64, h1, h]

theorem sectionFold64_bss_keep (base : Nat) :
    ∀ (l : List Shdr) (p : PyProc × Option Shdr), (∀ sh ∈ l, sh.sh_name ≠ ".bss") →
      (l.foldl (sectionStep64 base) p).1.bss_base = p.1.bss_base ∧
      (l.foldl (sectionStep64 base) p).1.bss_size = p.1.bss_size := by
  intro l
  induction l with
  | nil => intro p _; exact ⟨rfl, rfl⟩
  | cons a l ih =>
      intro p h
      have ha := sectionStep64_bss_keep base p a (h a (List.mem_cons_self a l))
      have hl := ih (sectionStep64 base p a) fun sh hs => h sh (List.mem_cons_of_mem a hs)
      simp only [List.foldl_cons]
      exact ⟨hl.1.trans ha.1, hl.2.trans ha.2⟩

/-- Claim C10 (confirmed): `_py_proc__analyze_elf32` never writes the BSS
sub-region — for every input the process state keeps its `map.bss`
untouched — whereas `_py_proc__analyze_elf64` (when a loadable segment
exists and the last `.bss`-named section is `sh`) sets `map.bss.base` to
`map.elf.base + (sh sh_addr - base)` and `map.bss.size` to the section
size. -/
theorem bss_population_by_word_size :
    (∀ (self : PyProc) (f : ElfFile),
        (analyze_elf32 self f).self.bss_base = self.bss_base ∧
        (analyze_elf32 self f).self.bss_size = self.bss_size) ∧
    (∀ (self : PyProc) (f : ElfFile) (pre post : List Shdr) (sh : Shdr),
        f.shdrs = pre ++ sh :: post → sh.sh_name = ".bss" →
        (∀ t ∈ post, t.sh_name ≠ ".bss") →
        get_base_64 f.phdrs ≠ UINT64MAX →
        (analyze_elf64 self f).self.bss_base =
          add64 self.elf_base (sub64 sh.sh_addr (get_base_64 f.phdrs)) ∧
        (analyze_elf64 self f).self.bss_size = sh.sh_size) := by
  constructor
  · intro self f
    by_cases hb : get_base_32 f.phdrs = UINT32MAX
    · simp [analyze_elf32, hb]
    · have hf := sectionFold32_fst f.shdrs (self, none)
      cases hd : (List.foldl sectionStep32 (self, none) f.shdrs).2 with
      | none => simp [analyze_elf32, hb, hd, hf]
      | some d =>
          have hb1 : (List.foldl sectionStep32 (self, none) f.shdrs).1.bss_base =
              self.bss_base := congrArg PyProc.bss_base hf
          have hb2 : (List.foldl sectionStep32 (self, none) f.shdrs).1.bss_size =
              self.bss_size := congrArg PyProc.bss_size hf
          by_cases ho : d.sh_offset = 0
          · simp only [analyze_elf32, if_neg hb, hd]
            rw [if_neg (not_not_intro ho)]
            exact ⟨hb1, hb2⟩
          · have hs := scanSyms_bss
              (fun v => add64 (List.foldl sectionStep32 (self, none) f.shdrs).1.elf_base
                (sub32 v (get_base_32 f.phdrs)))
              d.entries (List.foldl sectionStep32 (self, none) f.shdrs).1 0
            simp only [analyze_elf32, if_neg hb, hd]
            rw [if_pos ho]
            exact ⟨hs.1.trans hb1, hs.2.trans hb2⟩
  · intro self f pre post sh hsplit hname hpost hbase
    have hfold : List.foldl (sectionStep64 (get_base_64 f.phdrs)) (self, none) f.shdrs =
        List.foldl (sectionStep64 (get_base_64 f.phdrs))
          (sectionStep64 (get_base_64 f.phdrs)
            (List.foldl (sectionStep64 (get_base_64 f.phdrs)) (self, none) pre) sh)
          post := by
      rw [hsplit, List.foldl_append, List.foldl_cons]
    have helf : (List.foldl (sectionStep64 (get_base_64 f.phdrs)) (self, none)
        pre).1.elf_base = self.elf_base :=
      (sectionFold64_frame (get_base_64 f.phdrs) pre (self, none)).2.2
    have hset := sectionStep64_bss_set (get_base_64 f.phdrs)
      (List.foldl (sectionStep64 (get_base_64 f.phdrs)) (self, none) pre) sh hname
    have hkeep := sectionFold64_bss_keep (get_base_64 f.phdrs) post
      (sectionStep64 (get_base_64 f.phdrs)
        (List.foldl (sectionStep64 (get_base_64 f.phdrs)) (self, none) pre) sh) hpost
    have hP3b : (List.foldl (sectionStep64 (get_base_64 f.phdrs)) (self, none)
        f.shdrs).1.bss_base = add64 self.elf_base (sub64 sh.sh_addr (get_base_64 f.phdrs)) := by
      rw [hfold]
      rw [hkeep.1, hset.1, helf]
    have hP3s : (List.foldl (sectionStep64 (get_base_64 f.phdrs)) (self, none)
        f.shdrs).1.bss_size = sh.sh_size := by
      rw [hfold]
      rw [hkeep.2, hset.2]
    cases hd : (List.foldl (sectionStep64 (get_base_64 f.phdrs)) (self, none) f.shdrs).2 with
    | none =>
        simp only [analyze_elf64, if_neg hbase, hd]
        exact ⟨hP3b, hP3s⟩
    | some d =>
        by_cases ho : d.sh_offset = 0
        · simp only [analyze_elf64, if_neg hbase, hd]
          rw [if_neg (not_not_intro ho)]
          exact ⟨hP3b, hP3s⟩
        · have hs := scanSyms_bss
            (fun v => add64 (List.foldl (sectionStep64 (get_base_64 f.phdrs)) (self, none)
              f.shdrs).1.elf_base (sub64 v (get_base_64 f.phdrs)))
            d.entries (List.foldl (sectionStep64 (get_base_64 f.phdrs)) (self, none) f.shdrs).1 0
          simp only [analyze_elf64, if_neg hbase, hd]
          rw [if_pos ho]
          exact ⟨hs.1.trans hP3b, hs.2.trans hP3s⟩

/-- Witness for C10: on a 64-bit object with `elf.base = 0x400000`, bias
`0x1000` and a `.bss` section at `sh_addr = 0x5000` of size `0x800`, the
analysis maps BSS to `0x404000`. -/
theorem bss_population_by_word_size_wit :
    (analyze_elf64 { self0 with elf_base := 0x400000 } fBss).self.bss_base = 0x404000 ∧
    (analyze_elf64 { self0 with elf_base := 0x400000 } fBss).self.bss_size = 0x800 ∧
    (analyze_elf32 { self0 with elf_base := 0x400000 } fBss).self.bss_base =
      self0.bss_base := by
  have h := (bss_population_by_word_size).2 { self0 with elf_base := 0x400000 } fBss
    [{ sh_type := SHT_DYNSYM, sh_name := ".dynsym", sh_offset := 0x300,
       sh_size := 24, sh_addr := 0,
       entries := [{ st_name := "_PyRuntime", st_value := 0x2000 }] }]
    []
    { sh_type := 8, sh_name := ".bss", sh_offset := 0x2000,
      sh_size := 0x800, sh_addr := 0x5000, entries := [] }
    rfl rfl (by simp) (by decide)
  have h32 := (bss_population_by_word_size).1 { self0 with elf_base := 0x400000 } fBss
  refine ⟨?_, ?_, ?_⟩
  · rw [h.1]
    decide
  · exact h.2
  · rw [h32.1]

/-! ### Lemmas about the maps-file loop -/

theorem boundsUpdate_min (s : PyProc) (l : MapsLine) :
    (boundsUpdate s l).min_raddr = minStep s.min_raddr l := by
  simp only [boundsUpdate, minStep]
  split_ifs <;> rfl

theorem boundsUpdate_max (s : PyProc) (l : MapsLine) :
    (boundsUpdate s l).max_raddr = maxStep s.max_raddr l := by
  simp only [boundsUpdate, maxStep]
  split_ifs <;> rfl

theorem boundsUpdate_bin (s : PyProc) (l : MapsLine) :
    (boundsUpdate s l).bin_path = s.bin_path := by
  simp only [boundsUpdate]
  split_ifs <;> rfl

theorem boundsUpdate_lib (s : PyProc) (l : MapsLine) :
    (boundsUpdate s l).lib_path = s.lib_path := by
  simp only [boundsUpdate]
  split_ifs <;> rfl

theorem parseMapsStep_min (fs : FSOracle) (p : PyProc × Bool) (l : MapsLine) :
    (parseMapsStep fs p l).1.min_raddr = minStep p.1.min_raddr l := by
  rcases hp : l.pathname with _ | q
  · simp only [parseMapsStep, hp]
    split_ifs <;> exact boundsUpdate_min p.1 l
  · simp only [parseMapsStep, hp]
    split_ifs <;> exact boundsUpdate_min p.1 l

theorem parseMapsStep_max (fs : FSOracle) (p : PyProc × Bool) (l : MapsLine) :
    (parseMapsStep fs p l).1.max_raddr = maxStep p.1.max_raddr l := by
  rcases hp : l.pathname with _ | q
  · simp only [parseMapsStep, hp]
    split_ifs <;> exact boundsUpdate_max p.1 l
  · simp only [parseMapsStep, hp]
    split_ifs <;> exact boundsUpdate_max p.1 l

theorem parseFold_min (fs : FSOracle) :
    ∀ (lines : List MapsLine) (p : PyProc × Bool),
      (lines.foldl (parseMapsStep fs) p).1.min_raddr =
        lines.foldl minStep p.1.min_raddr := by
  intro lines
  induction lines with
  | nil => intro p; rfl
  | cons a lines ih =>
      intro p
      simp only [List.foldl_cons]
      rw [ih (parseMapsStep fs p a), parseMapsStep_min]

theorem parseFold_max (fs : FSOracle) :
    ∀ (lines : List MapsLine) (p : PyProc × Bool),
      (lines.foldl (parseMapsStep fs) p).1.max_raddr =
        lines.foldl maxStep p.1.max_raddr := by
  intro lines
  induction lines with
  | nil => intro p; rfl
  | cons a lines ih =>
      intro p
      simp only [List.foldl_cons]
      rw [ih (parseMapsStep fs p a), parseMapsStep_max]

theorem parseMapsFile_min (fs : FSOracle) (self : PyProc) (lines : List MapsLine) :
    (parseMapsFile fs self lines).1.min_raddr = lines.foldl minStep UINT64MAX :=
  parseFold_min fs lines
    ({ self with min_raddr := UINT64MAX, max_raddr := 0, bin_path := none, lib_path := none },
      false)

theorem parseMapsFile_max (fs : FSOracle) (self : PyProc) (lines : List MapsLine) :
    (parseMapsFile fs self lines).1.max_raddr = lines.foldl maxStep 0 :=
  parseFold_max fs lines
    ({ self with min_raddr := UINT64MAX, max_raddr := 0, bin_path := none, lib_path := none },
      false)

theorem minStep_le (m : Nat) (l : MapsLine) : minStep m l ≤ m := by
  simp only [minStep]
  split_ifs <;> omega

theorem maxStep_ge (m : Nat) (l : MapsLine) : m ≤ maxStep m l := by
  simp only [maxStep]
  split_ifs <;> omega

theorem foldl_minStep_le_init : ∀ (lines : List MapsLine) (m : Nat),
    List.foldl minStep m lines ≤ m := by
  intro lines
  induction lines with
  | nil => intro m; exact Nat.le_refl m
  | cons a lines ih =>
      intro m
      simp only [List.foldl_cons]
      exact le_trans (ih (minStep m a)) (minStep_le m a)

theorem foldl_maxStep_ge_init : ∀ (lines : List MapsLine) (m : Nat),
    m ≤ List.foldl maxStep m lines := by
  intro lines
  induction lines with
  | nil => intro m; exact Nat.le_refl m
  | cons a lines ih =>
      intro m
      simp only [List.foldl_cons]
      exact le_trans (maxStep_ge m a) (ih (maxStep m a))

theorem foldl_minStep_le : ∀ (lines : List MapsLine) (m : Nat) (l : MapsLine),
    l ∈ lines → realRegion l = true → List.foldl minStep m lines ≤ l.lower := by
  intro lines
  induction lines with
  | nil => intro m l hl _; cases hl
  | cons a lines ih =>
      intro m l hl hreal
      simp only [List.foldl_cons]
      rcases List.mem_cons.mp hl with h | h
      · subst h
        have h1 : minStep m l ≤ l.lower := by
          simp only [minStep]
          rw [if_pos hreal]
          split_ifs <;> omega
        exact le_trans (foldl_minStep_le_init lines (minStep m l)) h1
      · exact ih (minStep m a) l h hreal

theorem foldl_maxStep_ge : ∀ (lines : List MapsLine) (m : Nat) (l : MapsLine),
    l ∈ lines → realRegion l = true → l.upper ≤ List.foldl maxStep m lines := by
  intro lines
  induction lines with
  | nil => intro m l hl _; cases hl
  | cons a lines ih =>
      intro m l hl hreal
      simp only [List.foldl_cons]
      rcases List.mem_cons.mp hl with h | h
      · subst h
        have h1 : l.upper ≤ maxStep m l := by
          simp only [maxStep]
          rw [if_pos hreal]
          split_ifs <;> omega
        exact le_trans h1 (foldl_maxStep_ge_init lines (maxStep m l))
      · exact ih (maxStep m a) l h hreal

theorem foldl_minStep_attained : ∀ (lines : List MapsLine) (m : Nat),
    List.foldl minStep m lines = m ∨
      ∃ l ∈ lines, realRegion l = true ∧ List.foldl minStep m lines = l.lower := by
  intro lines
  induction lines with
  | nil => intro m; exact Or.inl rfl
  | cons a lines ih =>
      intro m
      simp only [List.foldl_cons]
      rcases ih (minStep m a) with h | ⟨l, hl, hreal, heq⟩
      · by_cases hr : realRegion a = true
        · by_cases hlt : a.lower < m
          · refine Or.inr ⟨a, List.mem_cons_self a lines, hr, ?_⟩
            rw [h]
            simp only [minStep]
            rw [if_pos hr, if_pos hlt]
          · refine Or.inl ?_
            rw [h]
            simp only [minStep]
            rw [if_pos hr, if_neg hlt]
        · refine Or.inl ?_
          rw [h]
          simp only [minStep]
          rw [if_neg hr]
      · exact Or.inr ⟨l, List.mem_cons_of_mem a hl, hreal, heq⟩

theorem foldl_maxStep_attained : ∀ (lines : List MapsLine) (m : Nat),
    List.foldl maxStep m lines = m ∨
      ∃ l ∈ lines, realRegion l = true ∧ List.foldl maxStep m lines = l.upper := by
  intro lines
  induction lines with
  | nil => intro m; exact Or.inl rfl
  | cons a lines ih =>
      intro m
      simp only [List.foldl_cons]
      rcases ih (maxStep m a) with h | ⟨l, hl, hreal, heq⟩
      · by_cases hr : realRegion a = true
        · by_cases hgt : a.upper > m
          · refine Or.inr ⟨a, List.mem_cons_self a lines, hr, ?_⟩
            rw [h]
            simp only [maxStep]
            rw [if_pos hr, if_pos hgt]
          · refine Or.inl ?_
            rw [h]
            simp only [maxStep]
            rw [if_pos hr, if_neg hgt]
        · refine Or.inl ?_
          rw [h]
          simp only [maxStep]
          rw [if_neg hr]
      · exact Or.inr ⟨l, List.mem_cons_of_mem a hl, hreal, heq⟩

/-- Claim C9 (confirmed): after parsing, `min_raddr` is the lowest region
base and `max_raddr` the highest region end over the real regions — the
regions whose pathname does not contain `"[v"` (so `[vsyscall]`-style
pseudo-regions are excluded), pathless regions included. -/
theorem maps_addr_bounds (fs : FSOracle) (self : PyProc) (lines : List MapsLine)
    (hne : ∃ l ∈ lines, realRegion l = true)
    (hb : ∀ l ∈ lines, l.lower ≤ UINT64MAX) :
    (∀ l ∈ lines, realRegion l = true →
        (parseMapsFile fs self lines).1.min_raddr ≤ l.lower ∧
        l.upper ≤ (parseMapsFile fs self lines).1.max_raddr) ∧
    (∃ l ∈ lines, realRegion l = true ∧
        (parseMapsFile fs self lines).1.min_raddr = l.lower) ∧
    (∃ l ∈ lines, realRegion l = true ∧
        (parseMapsFile fs self lines).1.max_raddr = l.upper) ∧
    (∀ l : MapsLine, l.pathname = none → realRegion l = true) := by
  obtain ⟨l0, hl0, hr0⟩ := hne
  refine ⟨?_, ?_, ?_, ?_⟩
  · intro l hl hreal
    rw [parseMapsFile_min fs self lines, parseMapsFile_max fs self lines]
    exact ⟨foldl_minStep_le lines UINT64MAX l hl hreal,
      foldl_maxStep_ge lines 0 l hl hreal⟩
  · rw [parseMapsFile_min fs self lines]
    rcases foldl_minStep_attained lines UINT64MAX with h | ⟨l, hl, hreal, heq⟩
    · have hle := foldl_minStep_le lines UINT64MAX l0 hl0 hr0
      rw [h] at hle
      have heq0 : l0.lower = UINT64MAX := le_antisymm (hb l0 hl0) hle
      exact ⟨l0, hl0, hr0, by rw [h, heq0]⟩
    · exact ⟨l, hl, hreal, heq⟩
  · rw [parseMapsFile_max fs self lines]
    rcases foldl_maxStep_attained lines 0 with h | ⟨l, hl, hreal, heq⟩
    · have hge := foldl_maxStep_ge lines 0 l0 hl0 hr0
      rw [h] at hge
      have heq0 : l0.upper = 0 := Nat.le_zero.mp hge
      exact ⟨l0, hl0, hr0, by rw [h, heq0]⟩
    · exact ⟨l, hl, hreal, heq⟩
  · intro l hp
    simp [realRegion, hp]

/-- Witness for C9: the bounds property instantiated on a concrete maps
listing (real regions `[0x1000,0x2000)`, `[0x3000,0x4000)`, `[0x5000,0x6000)`). -/
theorem maps_addr_bounds_wit :
    (∀ l ∈ linesBoth, realRegion l = true →
        (parseMapsFile fsBoth self0 linesBoth).1.min_raddr ≤ l.lower ∧
        l.upper ≤ (parseMapsFile fsBoth self0 linesBoth).1.max_raddr) ∧
    (∃ l ∈ linesBoth, realRegion l = true ∧
        (parseMapsFile fsBoth self0 linesBoth).1.min_raddr = l.lower) ∧
    (∃ l ∈ linesBoth, realRegion l = true ∧
        (parseMapsFile fsBoth self0 linesBoth).1.max_raddr = l.upper) ∧
    (∀ l : MapsLine, l.pathname = none → realRegion l = true) :=
  maps_addr_bounds fsBoth self0 linesBoth (by decide) (by decide)

/-- Claim C3 (amended): a maps region becomes a binary or library candidate
only if its line matches the interpreter name and its backing file is at
least 1 MiB (`1 << 20`) on disk — the size threshold is inclusive; once an
executable has been found, all later executable and library candidates are
ignored; a qualifying executable is accepted even after a library was; and
the object file handed to the ELF analyzers is the LIBRARY whenever
`lib_path` is set, not the executable. -/
theorem maps_candidate_selection (fs : FSOracle) (self : PyProc) (heapSeen : Bool)
    (l : MapsLine) :
    (linePython l = false →
        (parseMapsStep fs (self, heapSeen) l).1.bin_path = self.bin_path ∧
        (parseMapsStep fs (self, heapSeen) l).1.lib_path = self.lib_path) ∧
    (∀ p, l.pathname = some p → fs.fileSize p < 2 ^ 20 →
        (parseMapsStep fs (self, heapSeen) l).1.bin_path = self.bin_path ∧
        (parseMapsStep fs (self, heapSeen) l).1.lib_path = self.lib_path) ∧
    (self.bin_path ≠ none →
        (parseMapsStep fs (self, heapSeen) l).1.bin_path = self.bin_path ∧
        (parseMapsStep fs (self, heapSeen) l).1.lib_path = self.lib_path) ∧
    (∀ p, l.pathname = some p → linePython l = true → lineHeap l = false →
        fs.isExec p = true → 2 ^ 20 ≤ fs.fileSize p → self.bin_path = none →
        (parseMapsStep fs (self, heapSeen) l).1.bin_path = some p) ∧
    (∀ q, self.lib_path = some q → objectFile self = some q) := by
  refine ⟨?_, ?_, ?_, ?_, ?_⟩
  · intro h
    rcases hp : l.pathname with _ | q
    · simp only [parseMapsStep, hp]
      split_ifs <;> simp_all [boundsUpdate_bin, boundsUpdate_lib]
    · simp only [parseMapsStep, hp]
      split_ifs <;> simp_all [boundsUpdate_bin, boundsUpdate_lib]
  · intro q hp hsize
    simp only [parseMapsStep, hp]
    split_ifs <;> simp_all [boundsUpdate_bin, boundsUpdate_lib]
  · intro h
    rcases hp : l.pathname with _ | q
    · simp only [parseMapsStep, hp]
      split_ifs <;> simp_all [boundsUpdate_bin, boundsUpdate_lib]
    · simp only [parseMapsStep, hp]
      split_ifs <;> simp_all [boundsUpdate_bin, boundsUpdate_lib]
  · intro q hp hpy hheap hexec hsize hbin
    simp only [parseMapsStep, hp]
    split_ifs <;> simp_all [boundsUpdate_bin, boundsUpdate_lib] <;> omega
  · intro q hq
    simp [objectFile, hq]

/-- Witness for C3: concrete instances of each clause — a non-matching line
changes nothing; an undersized file changes nothing; a line after the
executable was found changes nothing; a qualifying executable is accepted;
and the analyzer prefers the library path. -/
theorem maps_candidate_selection_wit :
    ((parseMapsStep fsBoth (self0, false)
        { lower := 0, upper := 1, pathname := some "/usr/bin/bash" }).1.bin_path = none) ∧
    ((parseMapsStep { fileSize := fun _ => 0, isExec := fun _ => false } (self0, false)
        { lower := 0, upper := 1, pathname := some binP }).1.lib_path = none) ∧
    ((parseMapsStep fsBoth ({ self0 with bin_path := some binP }, false)
        { lower := 0x1000, upper := 0x2000, pathname := some libP }).1.lib_path = none) ∧
    ((parseMapsStep fsBoth (self0, false)
        { lower := 0x3000, upper := 0x4000, pathname := some binP }).1.bin_path = some binP) ∧
    (objectFile { self0 with bin_path := some binP, lib_path := some libP } = some libP) := by
  refine ⟨?_, ?_, ?_, ?_, ?_⟩
  · exact ((maps_candidate_selection fsBoth self0 false
      { lower := 0, upper := 1, pathname := some "/usr/bin/bash" }).1 (by decide)).1
  · exact ((maps_candidate_selection { fileSize := fun _ => 0, isExec := fun _ => false }
      self0 false { lower := 0, upper := 1, pathname := some binP }).2.1 binP rfl
      (by decide)).2
  · exact ((maps_candidate_selection fsBoth { self0 with bin_path := some binP } false
      { lower := 0x1000, upper := 0x2000, pathname := some libP }).2.2.1 (by decide)).2
  · exact (maps_candidate_selection fsBoth self0 false
      { lower := 0x3000, upper := 0x4000, pathname := some binP }).2.2.2.1 binP rfl
      (by decide) (by decide) rfl (by decide) rfl
  · exact (maps_candidate_selection fsBoth
      { self0 with bin_path := some binP, lib_path := some libP } false
      { lower := 0, upper := 1, pathname := none }).2.2.2.2 libP rfl

/-- Counterexample to claim C3 as stated: in a maps listing where a
qualifying shared library precedes the qualifying executable, the executable
is found (`bin_path` set) yet the object file handed to the binary parser is
the library; moreover the library was accepted with an on-disk size of
exactly 1 MiB, which does not EXCEED 1 MiB. -/
theorem maps_candidate_selection_cex :
    (parseMapsFile fsBoth self0 linesBoth).2 = true ∧
    (parseMapsFile fsBoth self0 linesBoth).1.bin_path = some binP ∧
    fsBoth.isExec binP = true ∧
    2 ^ 20 ≤ fsBoth.fileSize binP ∧
    objectFile (parseMapsFile fsBoth self0 linesBoth).1 = some libP ∧
    libP ≠ binP ∧
    (parseMapsFile fsBoth self0 linesBoth).1.lib_path = some libP ∧
    fsBoth.fileSize libP = 2 ^ 20 := by decide

/-- Claim C4 (amended): `_py_proc__parse_maps_file` succeeds only if at
least one of `bin_path` and `lib_path` is populated (and the heap map was
seen) — never neither; but not exactly one: both can be populated at once. -/
theorem maps_paths_populated (fs : FSOracle) (self : PyProc) (lines : List MapsLine)
    (h : (parseMapsFile fs self lines).2 = true) :
    ¬((parseMapsFile fs self lines).1.bin_path = none ∧
      (parseMapsFile fs self lines).1.lib_path = none) := by
  simp only [parseMapsFile, decide_eq_true_eq] at h
  simp only [parseMapsFile]
  exact h.1

/-- Witness for C4: the populated-paths consequence on a concrete listing. -/
theorem maps_paths_populated_wit :
    ¬((parseMapsFile fsBoth self0 linesBoth).1.bin_path = none ∧
      (parseMapsFile fsBoth self0 linesBoth).1.lib_path = none) :=
  maps_paths_populated fsBoth self0 linesBoth (by decide)

/-- Counterexample to claim C4 as stated: a successful parse of a listing in
which a qualifying library precedes the executable leaves BOTH `bin_path`
and `lib_path` populated — "exactly one" fails. -/
theorem maps_both_paths_cex :
    (parseMapsFile fsBoth self0 linesBoth).2 = true ∧
    (parseMapsFile fsBoth self0 linesBoth).1.bin_path ≠ none ∧
    (parseMapsFile fsBoth self0 linesBoth).1.lib_path ≠ none := by decide

end Austin
